import Mathlib

/-!
# Verification of the nebula fractal renderer's per-pixel core

A shallow embedding of `src/nebula.js` (class `FractalGenerator`): the
escape-time recurrences (`mandelbrot`, `julia`), the color conversion
(`hslToRgb`), the blend primitive (`blend`), and the per-pixel bodies of the
rendering passes (`drawFractal`, `applyFogLayer`, `drawStarsInFractal`, the
final soft-fog loop of `render`).

JavaScript numbers are modelled as elements of an arbitrary linear ordered
field `α` (instantiated at `ℝ` or `ℚ` in theorems and witnesses).  The
external library functions the source calls — `Math.sin`, `Math.pow(·, 1.5)`,
`Math.sqrt`, the `simplex-noise` sampler `noise2D`, and `Math.random` — are
parameters of the embedding (`sin`, `powF`, `sqrtFn`, `noise`, `rand`), since
their numeric behaviour is external to the repository.  `Math.round`,
`Math.floor`, `Math.min`/`max`, truncating `%` and the grid loops are
translated directly.  IEEE special values (NaN), which one claim is about,
are modelled separately by adjoining an absorbing `none` to `ℚ`
(`Option ℚ`), with comparisons against NaN evaluating to false, as in IEEE
arithmetic.
-/

namespace Nebula

variable {α : Type*} [LinearOrderedField α]

/-! ## Scalar helpers (`blend`, `Math.round`, the truncating `%`) -/

/-- `blend(bg, fg, alpha)` of `nebula.js`: `bg * (1 - alpha) + fg * alpha`,
with no clamping. -/
def blend (bg fg alpha : α) : α :=
  bg * (1 - alpha) + fg * alpha

/-- JavaScript `Math.trunc` (rounding toward zero), used to model the `%`
operator on numbers. -/
def jsTrunc [FloorRing α] (x : α) : ℤ :=
  if 0 ≤ x then ⌊x⌋ else ⌈x⌉

/-- JavaScript's remainder operator `a % b` on numbers:
`a - b * trunc (a / b)` (the result carries the dividend's sign). -/
def jsMod [FloorRing α] (a b : α) : α :=
  a - b * (jsTrunc (a / b) : α)

/-- JavaScript `Math.round`: exact halves round toward `+∞`, so
`round x = ⌊x + 1/2⌋`. -/
def jsRound [FloorRing α] (x : α) : ℤ :=
  ⌊x + 1 / 2⌋

/-! ## `hslToRgb` (lines 42–65) -/

/-- The inner `hue2rgb(p, q, t)` closure of `hslToRgb`: the two conditional
shifts of `t` into `[0,1]` followed by the piecewise-linear channel value. -/
def hue2rgb (p q t : α) : α :=
  let t1 := if t < 0 then t + 1 else t
  let t2 := if t1 > 1 then t1 - 1 else t1
  if t2 < 1 / 6 then p + (q - p) * 6 * t2
  else if t2 < 1 / 2 then q
  else if t2 < 2 / 3 then p + (q - p) * (2 / 3 - t2) * 6
  else p

/-- `hslToRgb(h, s, l)` of `nebula.js`: inputs are normalized by `360`/`100`;
a zero (normalized) saturation yields the achromatic branch `r = g = b = l`;
otherwise the `(p, q)` chroma pair feeds `hue2rgb` at the three phase
offsets.  Each channel is scaled by `255` and rounded. -/
def hslToRgb [FloorRing α] (h s l : α) : ℤ × ℤ × ℤ :=
  let h' := h / 360
  let s' := s / 100
  let l' := l / 100
  let rgb : α × α × α :=
    if s' = 0 then (l', l', l')
    else
      let q := if l' < 0.5 then l' * (1 + s') else l' + s' - l' * s'
      let p := 2 * l' - q
      (hue2rgb p q (h' + 1 / 3), hue2rgb p q h', hue2rgb p q (h' - 1 / 3))
  (jsRound (rgb.1 * 255), jsRound (rgb.2.1 * 255), jsRound (rgb.2.2 * 255))

/-! ## The escape-time engine (`mandelbrot` lines 68–82, `julia` lines 277–288)

The `while` loops run at most `maxIter` iterations (the counter starts at `0`
and the guard includes `iter < maxIter`), so `maxIter` is sufficient fuel:
the fuel argument of the `go` functions reaches `0` exactly when the guard
`iter < maxIter` fails. -/

/-- Loop body and guard of `mandelbrot` (lines 72–80), fuel-indexed.
`sin` stands for `Math.sin`. -/
def mandelbrotGo (sin : α → α) (x y : α) (maxIter : ℕ) :
    ℕ → α → α → ℕ → ℕ
  | 0, _, _, iter => iter
  | fuel + 1, zx, zy, iter =>
    if zx * zx + zy * zy < 4 ∧ iter < maxIter then
      let xtemp := zx * zx - zy * zy + x
      let zy1 := 2 * zx * zy + y
      let zx1 := xtemp
      let zx2 := zx1 + 0.005 * sin (zy1 * 3)
      let zy2 := zy1 + 0.005 * sin (zx2 * 2)
      mandelbrotGo sin x y maxIter fuel zx2 zy2 (iter + 1)
    else iter

/-- `mandelbrot(x, y)` of `nebula.js`: `z₀ = (0, 0)`, loop while
`zx² + zy² < 4` and `iter < maxIter`; each pass applies the quadratic step
and then the two sequential sine perturbations; returns the completed
iteration count. -/
def mandelbrot (sin : α → α) (maxIter : ℕ) (x y : α) : ℕ :=
  mandelbrotGo sin x y maxIter maxIter 0 0 0

/-- Loop body and guard of `julia` (lines 281–286), fuel-indexed. -/
def juliaGo (cx cy : α) (maxIter : ℕ) : ℕ → α → α → ℕ → ℕ
  | 0, _, _, iter => iter
  | fuel + 1, zx, zy, iter =>
    if zx * zx + zy * zy < 4 ∧ iter < maxIter then
      let xtemp := zx * zx - zy * zy + cx
      let zy1 := 2 * zx * zy + cy
      juliaGo cx cy maxIter fuel xtemp zy1 (iter + 1)
    else iter

/-- `julia(x, y, cx, cy)` of `nebula.js`: `z₀ = (x, y)`, the plain quadratic
step with constant `(cx, cy)` and no perturbation. -/
def julia (maxIter : ℕ) (x y cx cy : α) : ℕ :=
  juliaGo cx cy maxIter maxIter x y 0

/-! ### The specification's view of the engine

These definitions follow the spec's words (§4.3), to be compared with the
translations from the source above: a one-step state transformer for each
recurrence, and the count of completed iterations of a step function under
the escape guard `zx² + zy² < 4` with an iteration cap. -/

/-- Modelled from the spec: one Mandelbrot step
`zx' = zx² − zy² + x; zy' = 2·zx·zy + y` followed by the perturbation
`zx += 0.005·sin(3·zy)` then `zy += 0.005·sin(2·zx)`, each reading the
already-updated values. -/
def mandelbrotStepSpec (sin : α → α) (x y : α) (z : α × α) : α × α :=
  let zx1 := z.1 * z.1 - z.2 * z.2 + x
  let zy1 := 2 * z.1 * z.2 + y
  let zx2 := zx1 + 0.005 * sin (3 * zy1)
  let zy2 := zy1 + 0.005 * sin (2 * zx2)
  (zx2, zy2)

/-- Modelled from the spec: one Julia step
`zx' = zx² − zy² + cx; zy' = 2·zx·zy + cy`, no perturbation. -/
def juliaStepSpec (cx cy : α) (z : α × α) : α × α :=
  (z.1 * z.1 - z.2 * z.2 + cx, 2 * z.1 * z.2 + cy)

/-- Modelled from the spec: the number of completed iterations of `step`
starting from `z`, iterating while `zx² + zy² < 4` with at most `cap`
iterations. -/
def escapeCount (step : α × α → α × α) : ℕ → α × α → ℕ
  | 0, _ => 0
  | cap + 1, z =>
    if z.1 * z.1 + z.2 * z.2 < 4 then escapeCount step cap (step z) + 1 else 0

/-! ### Engine lemmas -/

theorem mandelbrotStepSpec_apply (sin : α → α) (x y zx zy : α) :
    mandelbrotStepSpec sin x y (zx, zy) =
      ((zx * zx - zy * zy + x) + 0.005 * sin ((2 * zx * zy + y) * 3),
        (2 * zx * zy + y) +
          0.005 * sin (((zx * zx - zy * zy + x) +
            0.005 * sin ((2 * zx * zy + y) * 3)) * 2)) := by
  simp only [mandelbrotStepSpec]
  ring_nf

theorem mandelbrotGo_eq_escapeCount (sin : α → α) (x y : α) (cap : ℕ) :
    ∀ fuel iter zx zy, iter + fuel = cap →
      mandelbrotGo sin x y cap fuel zx zy iter =
        iter + escapeCount (mandelbrotStepSpec sin x y) fuel (zx, zy) := by
  intro fuel
  induction fuel with
  | zero => intro iter zx zy _; simp [mandelbrotGo, escapeCount]
  | succ n ih =>
    intro iter zx zy h
    have hiter : iter < cap := by omega
    by_cases hlt : zx * zx + zy * zy < 4
    · rw [mandelbrotGo, if_pos ⟨hlt, hiter⟩, escapeCount, if_pos hlt,
        mandelbrotStepSpec_apply]
      rw [ih (iter + 1) _ _ (by omega)]
      omega
    · rw [mandelbrotGo, if_neg (by tauto), escapeCount, if_neg hlt]
      omega

theorem mandelbrot_eq_escapeCount (sin : α → α) (cap : ℕ) (x y : α) :
    mandelbrot sin cap x y =
      escapeCount (mandelbrotStepSpec sin x y) cap (0, 0) := by
  simpa using mandelbrotGo_eq_escapeCount sin x y cap cap 0 0 0 (by omega)

theorem juliaGo_eq_escapeCount (cx cy : α) (cap : ℕ) :
    ∀ fuel iter zx zy, iter + fuel = cap →
      juliaGo cx cy cap fuel zx zy iter =
        iter + escapeCount (juliaStepSpec cx cy) fuel (zx, zy) := by
  intro fuel
  induction fuel with
  | zero => intro iter zx zy _; simp [juliaGo, escapeCount]
  | succ n ih =>
    intro iter zx zy h
    have hiter : iter < cap := by omega
    by_cases hlt : zx * zx + zy * zy < 4
    · rw [juliaGo, if_pos ⟨hlt, hiter⟩, escapeCount, if_pos hlt]
      show juliaGo cx cy cap n (zx * zx - zy * zy + cx) (2 * zx * zy + cy)
          (iter + 1) = _
      rw [ih (iter + 1) _ _ (by omega)]
      simp [juliaStepSpec]
      omega
    · rw [juliaGo, if_neg (by tauto), escapeCount, if_neg hlt]
      omega

theorem julia_eq_escapeCount (cap : ℕ) (x y cx cy : α) :
    julia cap x y cx cy = escapeCount (juliaStepSpec cx cy) cap (x, y) := by
  simpa using juliaGo_eq_escapeCount cx cy cap cap 0 x y (by omega)

theorem escapeCount_le (step : α × α → α × α) :
    ∀ cap z, escapeCount step cap z ≤ cap := by
  intro cap
  induction cap with
  | zero => intro z; simp [escapeCount]
  | succ n ih =>
    intro z
    rw [escapeCount]
    split
    · exact Nat.add_le_add_right (ih _) 1
    · omega

theorem escapeCount_of_escaped (step : α × α → α × α) (cap : ℕ) (z : α × α)
    (h : ¬z.1 * z.1 + z.2 * z.2 < 4) : escapeCount step cap z = 0 := by
  cases cap with
  | zero => rfl
  | succ n => rw [escapeCount, if_neg h]

theorem escapeCount_eq_cap_iff (step : α × α → α × α) :
    ∀ cap z, escapeCount step cap z = cap ↔
      ∀ i < cap, (step^[i] z).1 * (step^[i] z).1 +
        (step^[i] z).2 * (step^[i] z).2 < 4 := by
  intro cap
  induction cap with
  | zero => intro z; simp [escapeCount]
  | succ n ih =>
    intro z
    rw [escapeCount]
    by_cases hlt : z.1 * z.1 + z.2 * z.2 < 4
    · rw [if_pos hlt]
      constructor
      · intro h i hi
        cases i with
        | zero => simpa using hlt
        | succ j =>
          have hj : j < n := by omega
          have := (ih (step z)).1 (by omega) j hj
          simpa [Function.iterate_succ_apply] using this
      · intro h
        have : escapeCount step n (step z) = n := by
          rw [ih (step z)]
          intro i hi
          have := h (i + 1) (by omega)
          simpa [Function.iterate_succ_apply] using this
        omega
    · rw [if_neg hlt]
      constructor
      · omega
      · intro h
        exact absurd (by simpa using h 0 (by omega)) hlt

/-! ### Claim C1 -/

/-- C1: `mandelbrot` starts from `z₀ = (0,0)` and, while `zx² + zy² < 4` and
the count is below the cap, applies the quadratic step followed by the two
sequential sine perturbations (each reading already-updated values); `julia`
starts from `z₀ = (x,y)` and applies the plain quadratic step with constant
`(cx, cy)`; both return the number of completed iterations, equal to the cap
when the point never escapes. -/
theorem escape_engine_matches_spec (sin : α → α) (x y cx cy : α) (cap : ℕ)
    (hcap : 1 ≤ cap) :
    mandelbrot sin cap x y =
        escapeCount (mandelbrotStepSpec sin x y) cap (0, 0) ∧
      julia cap x y cx cy = escapeCount (juliaStepSpec cx cy) cap (x, y) ∧
      ((∀ i < cap,
          ((mandelbrotStepSpec sin x y)^[i] (0, 0)).1 *
              ((mandelbrotStepSpec sin x y)^[i] (0, 0)).1 +
            ((mandelbrotStepSpec sin x y)^[i] (0, 0)).2 *
              ((mandelbrotStepSpec sin x y)^[i] (0, 0)).2 < 4) →
        mandelbrot sin cap x y = cap) ∧
      ((∀ i < cap,
          ((juliaStepSpec cx cy)^[i] (x, y)).1 *
              ((juliaStepSpec cx cy)^[i] (x, y)).1 +
            ((juliaStepSpec cx cy)^[i] (x, y)).2 *
              ((juliaStepSpec cx cy)^[i] (x, y)).2 < 4) →
        julia cap x y cx cy = cap) := by
  refine ⟨mandelbrot_eq_escapeCount sin cap x y,
    julia_eq_escapeCount cap x y cx cy, ?_, ?_⟩
  · intro h
    rw [mandelbrot_eq_escapeCount]
    exact (escapeCount_eq_cap_iff _ cap (0, 0)).2 h
  · intro h
    rw [julia_eq_escapeCount]
    exact (escapeCount_eq_cap_iff _ cap (x, y)).2 h

/-- Witness for C1 at `α = ℚ`, a zero sine, origin coordinates and cap 1. -/
theorem escape_engine_matches_spec_witness :
    (1 : ℕ) ≤ 1 ∧
      (mandelbrot (fun _ => (0 : ℚ)) 1 0 0 =
          escapeCount (mandelbrotStepSpec (fun _ => (0 : ℚ)) 0 0) 1 (0, 0) ∧
        julia 1 (0 : ℚ) 0 0 0 =
          escapeCount (juliaStepSpec (0 : ℚ) 0) 1 (0, 0) ∧
        ((∀ i < 1,
            ((mandelbrotStepSpec (fun _ => (0 : ℚ)) 0 0)^[i] (0, 0)).1 *
                ((mandelbrotStepSpec (fun _ => (0 : ℚ)) 0 0)^[i] (0, 0)).1 +
              ((mandelbrotStepSpec (fun _ => (0 : ℚ)) 0 0)^[i] (0, 0)).2 *
                ((mandelbrotStepSpec (fun _ => (0 : ℚ)) 0 0)^[i] (0, 0)).2 <
              4) →
          mandelbrot (fun _ => (0 : ℚ)) 1 0 0 = 1) ∧
        ((∀ i < 1,
            ((juliaStepSpec (0 : ℚ) 0)^[i] (0, 0)).1 *
                ((juliaStepSpec (0 : ℚ) 0)^[i] (0, 0)).1 +
              ((juliaStepSpec (0 : ℚ) 0)^[i] (0, 0)).2 *
                ((juliaStepSpec (0 : ℚ) 0)^[i] (0, 0)).2 < 4) →
          julia 1 (0 : ℚ) 0 0 0 = 1)) :=
  ⟨by decide, escape_engine_matches_spec (fun _ => 0) 0 0 0 0 1 (by decide)⟩

/-! ### Claim C2

The claim's statement fails on the code for `mandelbrot`: the Mandelbrot loop
starts from `z₀ = (0, 0)`, whose magnitude passes the guard, so with an
escaped coordinate `(x, y)` and zero perturbation the escape is only detected
at the second guard check and the function returns `1`, not `0`.  `julia`,
whose start is `(x, y)` itself, does return `0`. -/

/-- C2 counterexample: at `(x, y) = (2, 0)` (so `x² + y² = 4 ≥ 4`), zero
perturbation and cap 5, `mandelbrot` returns `1`, not `0` as claimed. -/
theorem escaped_point_zero_iterations_counterexample :
    (4 : ℚ) ≤ 2 * 2 + 0 * 0 ∧
      mandelbrot (fun _ => (0 : ℚ)) 5 2 0 ≠ 0 := by
  constructor
  · norm_num
  · norm_num [mandelbrot, mandelbrotGo]

/-- C2 (amended): for `(x, y)` with `x² + y² ≥ 4` and the perturbation term
zero, `julia` returns 0 (its start `(x, y)` fails the guard at entry) while
`mandelbrot` returns 1 (its start `(0, 0)` passes the guard once and the
escape is detected at the next check); both recurrences always return a count
in `[0, cap]`, returning the cap exactly when no iterate checked before the
cap escapes. -/
theorem escaped_point_iteration_counts (x y cx cy : α) (cap : ℕ)
    (hcap : 1 ≤ cap) (hesc : 4 ≤ x * x + y * y) :
    julia cap x y cx cy = 0 ∧
      mandelbrot (fun _ => 0) cap x y = 1 ∧
      (∀ (sin : α → α) (x' y' : α), mandelbrot sin cap x' y' ≤ cap) ∧
      (∀ x' y' : α, julia cap x' y' cx cy ≤ cap) ∧
      (∀ (sin : α → α) (x' y' : α),
        mandelbrot sin cap x' y' = cap ↔
          ∀ i < cap,
            ((mandelbrotStepSpec sin x' y')^[i] (0, 0)).1 *
                ((mandelbrotStepSpec sin x' y')^[i] (0, 0)).1 +
              ((mandelbrotStepSpec sin x' y')^[i] (0, 0)).2 *
                ((mandelbrotStepSpec sin x' y')^[i] (0, 0)).2 < 4) ∧
      (∀ x' y' : α,
        julia cap x' y' cx cy = cap ↔
          ∀ i < cap,
            ((juliaStepSpec cx cy)^[i] (x', y')).1 *
                ((juliaStepSpec cx cy)^[i] (x', y')).1 +
              ((juliaStepSpec cx cy)^[i] (x', y')).2 *
                ((juliaStepSpec cx cy)^[i] (x', y')).2 < 4) := by
  obtain ⟨n, rfl⟩ : ∃ n, cap = n + 1 := ⟨cap - 1, by omega⟩
  refine ⟨?_, ?_, ?_, ?_, ?_, ?_⟩
  · rw [julia_eq_escapeCount]
    exact escapeCount_of_escaped _ _ _ (by simpa using not_lt.2 hesc)
  · rw [mandelbrot_eq_escapeCount, escapeCount, if_pos (by norm_num)]
    have hstep : mandelbrotStepSpec (fun _ => (0 : α)) x y (0, 0) = (x, y) := by
      simp [mandelbrotStepSpec]
    rw [hstep, escapeCount_of_escaped _ _ _ (by simpa using not_lt.2 hesc)]
  · intro sin x' y'
    rw [mandelbrot_eq_escapeCount]
    exact escapeCount_le _ _ _
  · intro x' y'
    rw [julia_eq_escapeCount]
    exact escapeCount_le _ _ _
  · intro sin x' y'
    rw [mandelbrot_eq_escapeCount]
    exact escapeCount_eq_cap_iff _ _ _
  · intro x' y'
    rw [julia_eq_escapeCount]
    exact escapeCount_eq_cap_iff _ _ _

/-- Witness for C2 (amended) at `α = ℚ`, `(x, y) = (2, 0)`, cap 1. -/
theorem escaped_point_iteration_counts_witness :
    ((1 : ℕ) ≤ 1 ∧ (4 : ℚ) ≤ 2 * 2 + 0 * 0) ∧
      (julia 1 (2 : ℚ) 0 0 0 = 0 ∧
        mandelbrot (fun _ => (0 : ℚ)) 1 2 0 = 1 ∧
        (∀ (sin : ℚ → ℚ) (x' y' : ℚ), mandelbrot sin 1 x' y' ≤ 1) ∧
        (∀ x' y' : ℚ, julia 1 x' y' 0 0 ≤ 1) ∧
        (∀ (sin : ℚ → ℚ) (x' y' : ℚ),
          mandelbrot sin 1 x' y' = 1 ↔
            ∀ i < 1,
              ((mandelbrotStepSpec sin x' y')^[i] (0, 0)).1 *
                  ((mandelbrotStepSpec sin x' y')^[i] (0, 0)).1 +
                ((mandelbrotStepSpec sin x' y')^[i] (0, 0)).2 *
                  ((mandelbrotStepSpec sin x' y')^[i] (0, 0)).2 < 4) ∧
        (∀ x' y' : ℚ,
          julia 1 x' y' 0 0 = 1 ↔
            ∀ i < 1,
              ((juliaStepSpec (0 : ℚ) 0)^[i] (x', y')).1 *
                  ((juliaStepSpec (0 : ℚ) 0)^[i] (x', y')).1 +
                ((juliaStepSpec (0 : ℚ) 0)^[i] (x', y')).2 *
                  ((juliaStepSpec (0 : ℚ) 0)^[i] (x', y')).2 < 4)) :=
  ⟨⟨by decide, by norm_num⟩,
    escaped_point_iteration_counts 2 0 0 0 1 (by decide) (by norm_num)⟩

/-! ## Layered noise of the fog overlay pass (`applyFogLayer`, lines 149–155)

`noise` stands for the `simplex-noise` sampler `this.noise2D`. -/

/-- The `noiseSum` accumulated by `applyFogLayer`: `fogLayerCount` octaves at
frequency `fogSize · 2^layer` and amplitude `1 / 2^layer`. -/
def fogNoiseSum (noise : α → α → α) (fogSize : α) (fogLayerCount : ℕ)
    (px py : α) : α :=
  ∑ layer ∈ Finset.range fogLayerCount,
    noise (px * (fogSize * 2 ^ layer)) (py * (fogSize * 2 ^ layer)) *
      (1 / 2 ^ layer)

/-- `fogIntensity = (noiseSum + 1) / 2` of `applyFogLayer` (line 155). -/
def fogIntensity (noise : α → α → α) (fogSize : α) (fogLayerCount : ℕ)
    (px py : α) : α :=
  (fogNoiseSum noise fogSize fogLayerCount px py + 1) / 2

theorem sum_one_div_two_pow (n : ℕ) :
    ∑ l ∈ Finset.range n, (1 : α) / 2 ^ l = 2 - 2 * (1 / 2 : α) ^ n := by
  induction n with
  | zero => simp
  | succ m ih =>
    rw [Finset.sum_range_succ, ih]
    rw [pow_succ, one_div ((2:α) ^ m)]
    have h2 : ((2:α) ^ m)⁻¹ = (1 / 2 : α) ^ m := by
      rw [← one_div, ← one_div_pow]
    rw [h2]
    ring

theorem abs_fogNoiseSum_le (noise : α → α → α) (fogSize : α) (n : ℕ)
    (px py : α) (hnoise : ∀ a b, -1 ≤ noise a b ∧ noise a b ≤ 1) :
    |fogNoiseSum noise fogSize n px py| ≤ 2 - 2 * (1 / 2 : α) ^ n := by
  rw [← sum_one_div_two_pow]
  refine le_trans (Finset.abs_sum_le_sum_abs _ _) (Finset.sum_le_sum ?_)
  intro l _
  rw [abs_mul]
  have hp : (0 : α) < 2 ^ l := by positivity
  have h1 : |(1 : α) / 2 ^ l| = 1 / 2 ^ l := abs_of_pos (by positivity)
  rw [h1]
  have hb : |noise (px * (fogSize * 2 ^ l)) (py * (fogSize * 2 ^ l))| ≤ 1 :=
    abs_le.2 (hnoise _ _)
  calc |noise (px * (fogSize * 2 ^ l)) (py * (fogSize * 2 ^ l))| * (1 / 2 ^ l)
      ≤ 1 * (1 / 2 ^ l) := by
        exact mul_le_mul_of_nonneg_right hb (by positivity)
    _ = 1 / 2 ^ l := one_mul _

/-! ### Claim C3

The claim's statement fails on the code: `applyFogLayer` never clamps, and
for two or more layers the amplitudes sum to more than `1`, so with samples
in `[-1, 1]` the value `(noiseSum + 1) / 2` can leave `[0, 1]` on both
sides.  The attainable interval is
`[(1 - Sₙ) / 2, (1 + Sₙ) / 2]` with `Sₙ = 2 - 2 · (1/2)ⁿ` the sum of the
amplitudes; this equals `[0, 1]` exactly for one layer. -/

/-- C3 counterexample: two layers and the in-range constant sampler `1`
yield `fogIntensity = ((1 + 1/2) + 1) / 2 = 5/4 > 1`. -/
theorem fog_intensity_unit_interval_counterexample :
    ((1 : ℕ) ≤ 2 ∧ (2 : ℕ) ≤ 8) ∧
      (∀ a b : ℚ, -1 ≤ (fun _ _ => (1 : ℚ)) a b ∧ (fun _ _ => (1 : ℚ)) a b ≤ 1) ∧
      ¬fogIntensity (fun _ _ => (1 : ℚ)) (1 / 100) 2 0 0 ≤ 1 := by
  refine ⟨⟨by decide, by decide⟩, fun a b => by norm_num, ?_⟩
  norm_num [fogIntensity, fogNoiseSum, Finset.sum_range_succ]

/-- C3 (amended): for every pixel, every `fogLayerCount = n ∈ [1, 8]`, every
`fogSize` and every sampler with values in `[-1, 1]`, the value
`fogIntensity = (noiseSum + 1) / 2` lies in
`[(1 - Sₙ) / 2, (1 + Sₙ) / 2]` where `Sₙ = 2 - 2 · (1/2)ⁿ` is the maximal
attainable `|noiseSum|`; for `n = 1` this is the claimed `[0, 1]`. -/
theorem fog_intensity_bounds (noise : α → α → α) (fogSize : α) (n : ℕ)
    (px py : α) (hn : 1 ≤ n) (hn8 : n ≤ 8)
    (hnoise : ∀ a b, -1 ≤ noise a b ∧ noise a b ≤ 1) :
    (1 - (2 - 2 * (1 / 2 : α) ^ n)) / 2 ≤
        fogIntensity noise fogSize n px py ∧
      fogIntensity noise fogSize n px py ≤
        (1 + (2 - 2 * (1 / 2 : α) ^ n)) / 2 := by
  have habs := abs_fogNoiseSum_le noise fogSize n px py hnoise
  rw [abs_le] at habs
  unfold fogIntensity
  constructor
  · have := habs.1
    linarith
  · have := habs.2
    linarith

/-- Witness for C3 (amended) at `α = ℚ`, one layer, zero sampler. -/
theorem fog_intensity_bounds_witness :
    ((1 : ℕ) ≤ 1 ∧ (1 : ℕ) ≤ 8 ∧
        (∀ a b : ℚ, -1 ≤ (fun _ _ => (0 : ℚ)) a b ∧
          (fun _ _ => (0 : ℚ)) a b ≤ 1)) ∧
      ((1 - (2 - 2 * (1 / 2 : ℚ) ^ 1)) / 2 ≤
          fogIntensity (fun _ _ => (0 : ℚ)) (1 / 100) 1 0 0 ∧
        fogIntensity (fun _ _ => (0 : ℚ)) (1 / 100) 1 0 0 ≤
          (1 + (2 - 2 * (1 / 2 : ℚ) ^ 1)) / 2) :=
  ⟨⟨by decide, by decide, fun a b => by norm_num⟩,
    fog_intensity_bounds (fun _ _ => (0 : ℚ)) (1 / 100) 1 0 0 (by decide)
      (by decide) (fun a b => by norm_num)⟩

/-! ## The fog modulation of the fractal coloring pass
(`drawFractal`, lines 193–201) -/

/-- The `fogMod` value of `drawFractal`: three octaves at base coordinates
`(px · 0.03, py · 0.03)`, frequency `0.01 · 2^layer`, each sample rescaled by
`· 0.5 + 0.5` and weighted by `1 / (layer + 1)`, the total divided by
`1.875`. -/
def fogModAt (noise : α → α → α) (px py : α) : α :=
  (∑ layer ∈ Finset.range 3,
      (noise (px * 0.03 * (0.01 * 2 ^ layer)) (py * 0.03 * (0.01 * 2 ^ layer)) *
            0.5 + 0.5) /
        ((layer : α) + 1)) / 1.875

/-! ### Claim C10 -/

/-- C10: for every pixel and every sampler with values in `[-1, 1]`, the fog
modulation `fogMod = (Σ_{layer<3} (sample · 0.5 + 0.5) / (layer + 1)) / 1.875`
lies in `[0, 44/45]`, hence in `[0, 1)`, although the divisor `1.875` is not
the maximal pre-division sum `11/6`. -/
theorem fog_modulation_bounds (noise : α → α → α) (px py : α)
    (hnoise : ∀ a b, -1 ≤ noise a b ∧ noise a b ≤ 1) :
    0 ≤ fogModAt noise px py ∧ fogModAt noise px py ≤ 44 / 45 ∧
      fogModAt noise px py < 1 := by
  have hsum0 : (0 : α) ≤ ∑ layer ∈ Finset.range 3,
      (noise (px * 0.03 * (0.01 * 2 ^ layer)) (py * 0.03 * (0.01 * 2 ^ layer)) *
        0.5 + 0.5) / ((layer : α) + 1) := by
    refine Finset.sum_nonneg ?_
    intro l _
    have h := (hnoise (px * 0.03 * (0.01 * 2 ^ l)) (py * 0.03 * (0.01 * 2 ^ l))).1
    have hd : (0 : α) < (l : α) + 1 := by positivity
    apply div_nonneg _ hd.le
    nlinarith
  have hsum1 : ∑ layer ∈ Finset.range 3,
      (noise (px * 0.03 * (0.01 * 2 ^ layer)) (py * 0.03 * (0.01 * 2 ^ layer)) *
        0.5 + 0.5) / ((layer : α) + 1) ≤
      ∑ layer ∈ Finset.range 3, 1 / ((layer : α) + 1) := by
    refine Finset.sum_le_sum ?_
    intro l _
    have h := (hnoise (px * 0.03 * (0.01 * 2 ^ l)) (py * 0.03 * (0.01 * 2 ^ l))).2
    have hd : (0 : α) < (l : α) + 1 := by positivity
    exact div_le_div_of_nonneg_right (by nlinarith) hd.le
  have heval : ∑ layer ∈ Finset.range 3, (1 : α) / ((layer : α) + 1) = 11 / 6 := by
    norm_num [Finset.sum_range_succ]
  rw [heval] at hsum1
  unfold fogModAt
  refine ⟨by positivity, ?_, ?_⟩
  · rw [div_le_iff (by norm_num : (0 : α) < 1.875)]
    calc _ ≤ (11 / 6 : α) := hsum1
      _ = 44 / 45 * 1.875 := by norm_num
  · rw [div_lt_iff (by norm_num : (0 : α) < 1.875)]
    calc _ ≤ (11 / 6 : α) := hsum1
      _ < 1 * 1.875 := by norm_num

/-- Witness for C10 at `α = ℚ` with the zero sampler. -/
theorem fog_modulation_bounds_witness :
    (∀ a b : ℚ, -1 ≤ (fun _ _ => (0 : ℚ)) a b ∧ (fun _ _ => (0 : ℚ)) a b ≤ 1) ∧
      (0 ≤ fogModAt (fun _ _ => (0 : ℚ)) 7 9 ∧
        fogModAt (fun _ _ => (0 : ℚ)) 7 9 ≤ 44 / 45 ∧
        fogModAt (fun _ _ => (0 : ℚ)) 7 9 < 1) :=
  ⟨fun a b => by norm_num,
    fog_modulation_bounds (fun _ _ => (0 : ℚ)) 7 9 (fun a b => by norm_num)⟩

/-! ### Claims C7 and C8 -/

theorem jsRound_zero [FloorRing α] : jsRound (0 : α) = 0 := by
  rw [jsRound]
  rw [show (0 : α) + 1 / 2 = 1 / 2 by ring]
  rw [Int.floor_eq_zero_iff]
  constructor <;> norm_num

theorem hue2rgb_zero_zero (t : α) : hue2rgb (0 : α) 0 t = 0 := by
  simp only [hue2rgb]
  split_ifs <;> ring

/-- C7: `hslToRgb(h, s, 0) = (0, 0, 0)` for every hue and saturation, and
`hslToRgb(h, 0, l)` is the achromatic gray
`(round(l/100·255), round(l/100·255), round(l/100·255))` for every hue and
lightness. -/
theorem hslToRgb_lightness_zero_and_achromatic [FloorRing α] (h s l : α) :
    hslToRgb h s 0 = (0, 0, 0) ∧
      hslToRgb h 0 l =
        (jsRound (l / 100 * 255), jsRound (l / 100 * 255),
          jsRound (l / 100 * 255)) := by
  constructor
  · by_cases hs : s / 100 = 0
    · simp only [hslToRgb, if_pos hs, zero_div, zero_mul, jsRound_zero]
    · have hl : (0 : α) < 0.5 := by norm_num
      simp only [hslToRgb, if_neg hs, zero_div, if_pos hl, zero_mul, mul_zero,
        sub_zero, hue2rgb_zero_zero, jsRound_zero]
  · simp [hslToRgb, zero_div]

/-- C8: `blend(bg, fg, alpha) = bg·(1−alpha) + fg·alpha` with no
re-clamping, and `blend(bg, fg, 0) = bg`, `blend(bg, fg, 1) = fg`,
`blend(bg, bg, alpha) = bg`. -/
theorem blend_affine_identities (bg fg alpha : α) :
    blend bg fg alpha = bg * (1 - alpha) + fg * alpha ∧
      blend bg fg 0 = bg ∧ blend bg fg 1 = fg ∧ blend bg bg alpha = bg := by
  refine ⟨rfl, ?_, ?_, ?_⟩ <;> (simp only [blend]; ring)

/-! ## IEEE NaN model of the engine (claim C9)

The degenerate screen-to-plane mapping (`zoom = 0` at the centre column
divides `0 / 0`) produces NaN coordinates.  NaN is modelled by adjoining an
absorbing `none` to `ℚ`: arithmetic propagates NaN, and — as in IEEE 754 —
every `<` comparison involving NaN is false.  `nanSin` maps NaN to NaN, as
`Math.sin` does. -/

abbrev NanNum := Option ℚ

def nanAdd : NanNum → NanNum → NanNum
  | some a, some b => some (a + b)
  | _, _ => none

def nanSub : NanNum → NanNum → NanNum
  | some a, some b => some (a - b)
  | _, _ => none

def nanMul : NanNum → NanNum → NanNum
  | some a, some b => some (a * b)
  | _, _ => none

/-- `a < b` as JavaScript evaluates it: false whenever either side is NaN. -/
def nanLtB : NanNum → NanNum → Bool
  | some a, some b => decide (a < b)
  | _, _ => false

def nanSin (sinQ : ℚ → ℚ) : NanNum → NanNum
  | some a => some (sinQ a)
  | none => none

/-- `mandelbrot`'s loop over NaN-able numbers (same lines 72–80). -/
def mandelbrotNanGo (sinQ : ℚ → ℚ) (x y : NanNum) (maxIter : ℕ) :
    ℕ → NanNum → NanNum → ℕ → ℕ
  | 0, _, _, iter => iter
  | fuel + 1, zx, zy, iter =>
    if nanLtB (nanAdd (nanMul zx zx) (nanMul zy zy)) (some 4) ∧
        iter < maxIter then
      let xtemp := nanAdd (nanSub (nanMul zx zx) (nanMul zy zy)) x
      let zy1 := nanAdd (nanMul (nanMul (some 2) zx) zy) y
      let zx1 := xtemp
      let zx2 := nanAdd zx1
        (nanMul (some 0.005) (nanSin sinQ (nanMul zy1 (some 3))))
      let zy2 := nanAdd zy1
        (nanMul (some 0.005) (nanSin sinQ (nanMul zx2 (some 2))))
      mandelbrotNanGo sinQ x y maxIter fuel zx2 zy2 (iter + 1)
    else iter

/-- `mandelbrot(x, y)` over NaN-able numbers. -/
def mandelbrotNan (sinQ : ℚ → ℚ) (maxIter : ℕ) (x y : NanNum) : ℕ :=
  mandelbrotNanGo sinQ x y maxIter maxIter (some 0) (some 0) 0

/-- `julia`'s loop over NaN-able numbers (same lines 281–286). -/
def juliaNanGo (cx cy : NanNum) (maxIter : ℕ) :
    ℕ → NanNum → NanNum → ℕ → ℕ
  | 0, _, _, iter => iter
  | fuel + 1, zx, zy, iter =>
    if nanLtB (nanAdd (nanMul zx zx) (nanMul zy zy)) (some 4) ∧
        iter < maxIter then
      let xtemp := nanAdd (nanSub (nanMul zx zx) (nanMul zy zy)) cx
      let zy1 := nanAdd (nanMul (nanMul (some 2) zx) zy) cy
      juliaNanGo cx cy maxIter fuel xtemp zy1 (iter + 1)
    else iter

/-- `julia(x, y, cx, cy)` over NaN-able numbers. -/
def juliaNan (maxIter : ℕ) (x y cx cy : NanNum) : ℕ :=
  juliaNanGo cx cy maxIter maxIter x y 0

theorem nanAdd_none_left (b : NanNum) : nanAdd none b = none := by
  cases b <;> rfl

theorem nanAdd_none_right (a : NanNum) : nanAdd a none = none := by
  cases a <;> rfl

theorem nanMul_none_left (b : NanNum) : nanMul none b = none := by
  cases b <;> rfl

theorem nanMul_none_right (a : NanNum) : nanMul a none = none := by
  cases a <;> rfl

theorem nanLtB_none_left (b : NanNum) : nanLtB none b = false := by
  cases b <;> rfl

theorem mandelbrotNanGo_none (sinQ : ℚ → ℚ) (x y : NanNum) (cap : ℕ) :
    ∀ fuel iter, mandelbrotNanGo sinQ x y cap fuel none none iter = iter := by
  intro fuel iter
  cases fuel with
  | zero => rfl
  | succ n =>
    rw [mandelbrotNanGo, if_neg]
    intro hc
    simp [nanMul, nanAdd, nanLtB] at hc

/-- With a NaN x-coordinate, `mandelbrot` makes exactly one loop pass: the
start `(0, 0)` passes the guard, the pass poisons `z` with NaN, and the next
guard check (if any) is false. -/
theorem nanGuard_at_origin (n : ℕ) :
    nanLtB (nanAdd (nanMul (some (0 : ℚ)) (some 0)) (nanMul (some 0) (some 0)))
        (some 4) = true ∧ 0 < n + 1 := by
  refine ⟨?_, by omega⟩
  show decide ((0 : ℚ) * 0 + 0 * 0 < 4) = true
  simp only [decide_eq_true_eq]
  norm_num

theorem mandelbrotNan_nan_x (sinQ : ℚ → ℚ) (n : ℕ) (w : NanNum) :
    mandelbrotNan sinQ (n + 1) none w = 1 := by
  cases w with
  | none =>
    rw [mandelbrotNan, mandelbrotNanGo, if_pos (nanGuard_at_origin n)]
    exact mandelbrotNanGo_none sinQ none none (n + 1) n 1
  | some w0 =>
    rw [mandelbrotNan, mandelbrotNanGo, if_pos (nanGuard_at_origin n)]
    exact mandelbrotNanGo_none sinQ none (some w0) (n + 1) n 1

/-- With a NaN y-coordinate, `mandelbrot` likewise returns 1. -/
theorem mandelbrotNan_nan_y (sinQ : ℚ → ℚ) (n : ℕ) (w : NanNum) :
    mandelbrotNan sinQ (n + 1) w none = 1 := by
  cases w with
  | none =>
    rw [mandelbrotNan, mandelbrotNanGo, if_pos (nanGuard_at_origin n)]
    exact mandelbrotNanGo_none sinQ none none (n + 1) n 1
  | some w0 =>
    rw [mandelbrotNan, mandelbrotNanGo, if_pos (nanGuard_at_origin n)]
    exact mandelbrotNanGo_none sinQ (some w0) none (n + 1) n 1

/-- With a NaN start coordinate, `julia`'s first guard check is false and it
returns 0. -/
theorem juliaNan_nan_start (cap : ℕ) (w cx cy : NanNum) :
    juliaNan cap none w cx cy = 0 ∧ juliaNan cap w none cx cy = 0 := by
  constructor <;>
    · rw [juliaNan]
      cases cap with
      | zero => rfl
      | succ n =>
        rw [juliaNanGo, if_neg]
        intro hc
        rcases hc with ⟨hlt, _⟩
        cases w with
        | none =>
          have hfalse : (false : Bool) = true := hlt
          exact Bool.noConfusion hfalse
        | some w0 =>
          have hfalse : (false : Bool) = true := hlt
          exact Bool.noConfusion hfalse

/-! ### Claim C9

The claim's statement fails on the code for `mandelbrot` in the same way as
C2: the Mandelbrot loop starts at `(0, 0)`, a finite point, so a NaN
screen coordinate is only folded into `z` by the first pass and the NaN
guard failure is seen at the second check — the count is 1, not 0.  `julia`,
starting at the NaN coordinate itself, does terminate at 0. -/

/-- C9 counterexample: with a NaN x-coordinate and cap 5, `mandelbrot`
terminates at iteration count 1, not 0. -/
theorem nan_coordinate_count_counterexample :
    mandelbrotNan (fun q => q) 5 none (some 0) ≠ 0 := by
  rw [show (5 : ℕ) = 4 + 1 from rfl, mandelbrotNan_nan_x]
  omega

/-- C9 (amended): NaN screen coordinates never fault the engine (both
functions are total): `julia` fails its first guard check and terminates at
iteration count 0; `mandelbrot` starts from the finite `(0, 0)`, completes
exactly one iteration (which poisons `z` with NaN) and terminates at count 1,
because every comparison against NaN evaluates to false. -/
theorem nan_coordinates_terminate (sinQ : ℚ → ℚ) (cap : ℕ) (hcap : 1 ≤ cap)
    (w cx cy : NanNum) :
    juliaNan cap none w cx cy = 0 ∧
      juliaNan cap w none cx cy = 0 ∧
      mandelbrotNan sinQ cap none w = 1 ∧
      mandelbrotNan sinQ cap w none = 1 := by
  obtain ⟨n, rfl⟩ : ∃ n, cap = n + 1 := ⟨cap - 1, by omega⟩
  exact ⟨(juliaNan_nan_start _ w cx cy).1, (juliaNan_nan_start _ w cx cy).2,
    mandelbrotNan_nan_x sinQ n w, mandelbrotNan_nan_y sinQ n w⟩

/-- Witness for C9 (amended) at cap 1, the identity for `Math.sin`, finite
`w = 0` and zero Julia constant. -/
theorem nan_coordinates_terminate_witness :
    (1 : ℕ) ≤ 1 ∧
      (juliaNan 1 none (some 0) (some 0) (some 0) = 0 ∧
        juliaNan 1 (some 0) none (some 0) (some 0) = 0 ∧
        mandelbrotNan (fun q => q) 1 none (some 0) = 1 ∧
        mandelbrotNan (fun q => q) 1 (some 0) none = 1) :=
  ⟨by decide,
    nan_coordinates_terminate (fun q => q) 1 (by decide) (some 0) (some 0)
      (some 0)⟩

/-! ## The render configuration and the fractal coloring pass
(`drawFractal`, lines 171–221)

`Config` mirrors the constructor fields of `FractalGenerator` (lines 8–32)
that the per-pixel computations read; the canvas is fixed at `800 × 800`. -/

structure Config (α : Type*) where
  maxIter : ℕ
  zoom : α
  offsetX : α
  offsetY : α
  baseHue : α
  saturation : α
  lightness : α
  cx : α
  cy : α
  minNoise : α
  maxNoise : α
  fogDensity : α
  fogSize : α
  fogLayerCount : ℕ
  keepBlackAreasClear : Bool

inductive FractalType
  | mandelbrot
  | julia

/-- The recurrence selection `type === "julia" ? this.julia(...) :
this.mandelbrot(...)` (lines 183–186 and 233–236). -/
def fractalIter (sin : α → α) (cfg : Config α) :
    FractalType → α → α → ℕ
  | .julia, x, y => julia cfg.maxIter x y cfg.cx cfg.cy
  | .mandelbrot, x, y => mandelbrot sin cfg.maxIter x y

/-- The screen-to-plane map `x = (px - width/2) / zoom + offsetX`
(lines 181 and 231). -/
def pixelCoordX (cfg : Config α) (px : α) : α :=
  (px - 800 / 2) / cfg.zoom + cfg.offsetX

/-- The screen-to-plane map `y = (py - height/2) / zoom + offsetY`
(lines 182 and 232). -/
def pixelCoordY (cfg : Config α) (py : α) : α :=
  (py - 800 / 2) / cfg.zoom + cfg.offsetY

/-- The iteration count `drawFractal` computes for the pixel `(px, py)`. -/
def pixelIter (sin : α → α) (cfg : Config α) (type : FractalType)
    (px py : α) : ℕ :=
  fractalIter sin cfg type (pixelCoordX cfg px) (pixelCoordY cfg py)

/-- `mask = iter / maxIter` (line 187); real division as in JavaScript. -/
def pixelMask (sin : α → α) (cfg : Config α) (type : FractalType)
    (px py : α) : α :=
  (pixelIter sin cfg type px py : α) / (cfg.maxIter : α)

/-- `fade = 1 - Math.pow(mask, 1.5)` (line 188); `powF` stands for
`Math.pow(·, 1.5)`. -/
def pixelFade (sin powF : α → α) (cfg : Config α) (type : FractalType)
    (px py : α) : α :=
  1 - powF (pixelMask sin cfg type px py)

/-- The per-pixel body of `drawFractal` (lines 180–217): returns the
`coloredAreas` entry it records and the pixel's channel values after the
pass (the incoming values `(r0, g0, b0)` when the pixel is skipped). -/
def drawFractalPixel [FloorRing α] (sin powF : α → α) (noise : α → α → α)
    (cfg : Config α) (type : FractalType) (px py r0 g0 b0 : α) :
    Bool × α × α × α :=
  let iter := pixelIter sin cfg type px py
  let mask := pixelMask sin cfg type px py
  let fade := pixelFade sin powF cfg type px py
  let isColored := decide (iter < cfg.maxIter) && decide (fade > 0.01)
  if fade < 0.01 then (isColored, r0, g0, b0)
  else
    let fogMod := fogModAt noise px py
    let complementaryHue := jsMod (cfg.baseHue + 180) 360
    let hue := jsMod ((1 - mask) * cfg.baseHue + mask * complementaryHue) 360
    let sat := max 20 (cfg.saturation + mask * 25)
    let light := cfg.lightness + mask * 35 + fogMod * 10
    let c := hslToRgb hue sat light
    let alpha := 0.7 * fade
    let r1 := blend r0 (c.1 : α) alpha
    let g1 := blend g0 (c.2.1 : α) alpha
    let b1 := blend b0 (c.2.2 : α) alpha
    if cfg.minNoise < mask ∧ mask < cfg.maxNoise then
      let fogStrength := 200 + fogMod * 55
      let fogAlpha := (1 - mask) * 0.35
      (isColored, blend r1 fogStrength fogAlpha, blend g1 fogStrength fogAlpha,
        blend b1 fogStrength fogAlpha)
    else (isColored, r1, g1, b1)

/-! ### Claim C4

The skip guard at line 191 is the strict `fade < 0.01`, while the claim (and
the mask entry at line 189) uses `fade ≤ 0.01` / `fade > 0.01`.  The two
agree on every value the pass can produce, because `fade = 0.01` is
unattainable: `fade = 1 - mask^1.5` with `mask = iter/maxIter` a quotient of
naturals, and `mask^1.5 = 0.99` would force `mask³ = (99/100)² = 9801/10000`
— impossible for a quotient of naturals, since the 2-adic valuation of
`10000·iter³` is `4 + 3·v₂(iter) ≡ 1 (mod 3)` while that of `9801·maxIter³`
is `3·v₂(maxIter) ≡ 0 (mod 3)`.  So the claim holds as stated.
`Math.pow(·, 1.5)` is characterized on the nonnegative reals by
`0 ≤ pow(q) ∧ pow(q)² = q³`. -/

theorem no_natural_cube_9801_10000 (i c : ℕ) (hc : 1 ≤ c) :
    10000 * i ^ 3 ≠ 9801 * c ^ 3 := by
  intro h
  have hcne : c ≠ 0 := by omega
  have hi : i ≠ 0 := by
    rintro rfl
    have h0 : 9801 * c ^ 3 = 0 := by omega
    rcases Nat.mul_eq_zero.1 h0 with h9 | h3
    · exact absurd h9 (by norm_num)
    · exact hcne (pow_eq_zero_iff (by norm_num) |>.1 h3)
  have h2 : (10000 * i ^ 3).factorization 2 =
      (9801 * c ^ 3).factorization 2 := by
    rw [h]
  rw [Nat.factorization_mul (by norm_num) (pow_ne_zero 3 hi),
    Nat.factorization_mul (by norm_num) (pow_ne_zero 3 hcne),
    Nat.factorization_pow, Nat.factorization_pow] at h2
  simp only [Finsupp.coe_add, Finsupp.coe_smul, Pi.add_apply, Pi.smul_apply,
    smul_eq_mul] at h2
  have e1 : (10000 : ℕ).factorization 2 = 4 := by
    have h10 : (10000 : ℕ) = 2 ^ 4 * 625 := by norm_num
    rw [h10, Nat.factorization_mul (by norm_num) (by norm_num)]
    simp only [Finsupp.coe_add, Pi.add_apply]
    rw [Nat.Prime.factorization_pow Nat.prime_two]
    rw [Nat.factorization_eq_zero_of_not_dvd (by norm_num)]
    simp
  have e2 : (9801 : ℕ).factorization 2 = 0 :=
    Nat.factorization_eq_zero_of_not_dvd (by norm_num)
  rw [e1, e2] at h2
  omega

theorem natural_quotient_cube_ne (i c : ℕ) (hc : 1 ≤ c) :
    ((i : α) / (c : α)) ^ 3 ≠ 9801 / 10000 := by
  intro h
  have hc0 : ((c : α)) ≠ 0 := Nat.cast_ne_zero.2 (by omega)
  rw [div_pow, div_eq_div_iff (by positivity) (by norm_num)] at h
  have hnat : i ^ 3 * 10000 = 9801 * c ^ 3 := by exact_mod_cast h
  rw [mul_comm] at hnat
  exact no_natural_cube_9801_10000 i c hc hnat

theorem pixelMask_pow_three_ne (sin : α → α) (cfg : Config α)
    (type : FractalType) (px py : α) (hcap : 1 ≤ cfg.maxIter) :
    pixelMask sin cfg type px py ^ 3 ≠ 9801 / 10000 := by
  unfold pixelMask
  exact natural_quotient_cube_ne (pixelIter sin cfg type px py) cfg.maxIter
    hcap

/-- C4: for every pixel, the `coloredAreas` entry recorded by the coloring
pass is `(iter < cap AND fade > 0.01)` with `mask = iter/cap` and
`fade = 1 - mask^1.5`; and whenever `fade ≤ 0.01` the pass leaves that
pixel's channels completely unchanged (neither blend is applied).  The
code's skip guard is the strict `fade < 0.01`, but `fade = 0.01` is
unattainable because `mask^1.5 = 0.99` has no solution with `mask` a
quotient of naturals, so the claimed `≤` bound holds.  `powF` is
`Math.pow(·, 1.5)`, characterized on nonnegative inputs by
`0 ≤ powF q ∧ (powF q)² = q³`. -/
theorem drawFractal_mask_and_skip [FloorRing α] (sin powF : α → α)
    (noise : α → α → α) (cfg : Config α) (type : FractalType)
    (px py r0 g0 b0 : α) (hcap : 1 ≤ cfg.maxIter)
    (hpow : ∀ q : α, 0 ≤ q → 0 ≤ powF q ∧ powF q ^ 2 = q ^ 3) :
    (drawFractalPixel sin powF noise cfg type px py r0 g0 b0).1 =
        (decide (pixelIter sin cfg type px py < cfg.maxIter) &&
          decide (pixelFade sin powF cfg type px py > 0.01)) ∧
      (pixelFade sin powF cfg type px py ≤ 0.01 →
        (drawFractalPixel sin powF noise cfg type px py r0 g0 b0).2 =
          (r0, g0, b0)) := by
  constructor
  · simp only [drawFractalPixel]
    split
    · rfl
    · split <;> rfl
  · intro h
    have hmask0 : (0 : α) ≤ pixelMask sin cfg type px py := by
      unfold pixelMask
      positivity
    have hne : pixelFade sin powF cfg type px py ≠ 0.01 := by
      intro heq
      have h1 : 1 - powF (pixelMask sin cfg type px py) = 0.01 := heq
      have hp99 : powF (pixelMask sin cfg type px py) = 99 / 100 := by
        norm_num at h1
        linarith
      have hsq := (hpow _ hmask0).2
      rw [hp99] at hsq
      have hm3 : pixelMask sin cfg type px py ^ 3 = 9801 / 10000 := by
        rw [← hsq]
        norm_num
      exact pixelMask_pow_three_ne sin cfg type px py hcap hm3
    have hlt : pixelFade sin powF cfg type px py < 0.01 :=
      lt_of_le_of_ne h hne
    simp only [drawFractalPixel, if_pos hlt]

/-! ## Star records and the fog passes' exclusion rule
(`applyFogLayer`, lines 128–170; the final soft-fog loop of `render`,
lines 302–328) -/

/-- A recorded star: the pushed object `{x, y, radius}` (lines 242–246). -/
structure Star (α : Type*) where
  x : α
  y : α
  radius : α

/-- The star-exclusion scan (lines 138–144 and 308–314): some recorded star
has `Math.sqrt((px - star.x)² + (py - star.y)²) ≤ star.radius`.  `sqrtFn`
stands for `Math.sqrt`. -/
def starSkip (sqrtFn : α → α) (stars : List (Star α)) (px py : α) : Bool :=
  stars.any fun star =>
    decide (sqrtFn ((px - star.x) ^ 2 + (py - star.y) ^ 2) ≤ star.radius)

/-- The per-pixel body of `applyFogLayer` (lines 134–167): the pixel is left
unchanged when a star disk covers it or when `keepBlackAreasClear` is set
and the pixel is outside the colored area; otherwise the layered-noise fog
tint is blended in. -/
def applyFogPixel (noise : α → α → α) (sqrtFn : α → α) (cfg : Config α)
    (stars : List (Star α)) (coloredHere : Bool) (px py r g b : α) :
    α × α × α :=
  let skipFog := starSkip sqrtFn stars px py ||
    (cfg.keepBlackAreasClear && !coloredHere)
  if skipFog then (r, g, b)
  else
    let fi := fogIntensity noise cfg.fogSize cfg.fogLayerCount px py
    let fogColor0 := min 255 (r + 40)
    let fogColor1 := min 255 (g + 40)
    let fogColor2 := min 255 (b + 60)
    let alpha := fi * cfg.fogDensity
    (blend r fogColor0 alpha, blend g fogColor1 alpha, blend b fogColor2 alpha)

/-- The per-pixel body of the final soft-fog loop of `render`
(lines 304–327): same exclusion rule, then a clamped uniform brightening by
the single-octave noise value rescaled to `[0, 1]` and multiplied by 12. -/
def finalFogPixel (noise : α → α → α) (sqrtFn : α → α) (cfg : Config α)
    (stars : List (Star α)) (coloredHere : Bool) (px py r g b : α) :
    α × α × α :=
  let skipFog := starSkip sqrtFn stars px py ||
    (cfg.keepBlackAreasClear && !coloredHere)
  if skipFog then (r, g, b)
  else
    let noiseV := noise (px * 0.005) (py * 0.005) * 0.5 + 0.5
    let fogAmount := noiseV * 12
    (min 255 (r + fogAmount), min 255 (g + fogAmount), min 255 (b + fogAmount))

/-! ### Claim C5 -/

/-- C5: every pixel whose Euclidean distance to some recorded star's centre
is at most that star's exclusion radius has identical R, G, B values before
and after the fog overlay pass, and before and after the final soft-fog
pass — for every star list, configuration and noise function.  (`sqrtFn` is
assumed to behave as a square root on nonnegative inputs; the Euclidean
condition is phrased squared.) -/
theorem star_exclusion_pixels_unchanged (noise : α → α → α) (sqrtFn : α → α)
    (cfg : Config α) (stars : List (Star α)) (coloredHere : Bool)
    (px py r g b : α)
    (hsqrt : ∀ a : α, 0 ≤ a → 0 ≤ sqrtFn a ∧ sqrtFn a ^ 2 = a)
    (hstar : ∃ s ∈ stars, 0 ≤ s.radius ∧
      (px - s.x) ^ 2 + (py - s.y) ^ 2 ≤ s.radius ^ 2) :
    applyFogPixel noise sqrtFn cfg stars coloredHere px py r g b =
        (r, g, b) ∧
      finalFogPixel noise sqrtFn cfg stars coloredHere px py r g b =
        (r, g, b) := by
  have hskip : starSkip sqrtFn stars px py = true := by
    obtain ⟨s, hmem, hrad, hle⟩ := hstar
    rw [starSkip, List.any_eq_true]
    refine ⟨s, hmem, ?_⟩
    rw [decide_eq_true_eq]
    have hd2nn : (0 : α) ≤ (px - s.x) ^ 2 + (py - s.y) ^ 2 := by positivity
    obtain ⟨hnn, hsq⟩ := hsqrt _ hd2nn
    nlinarith [hsq, hle, hnn, hrad]
  constructor <;>
    simp only [applyFogPixel, finalFogPixel, hskip, Bool.true_or, if_true]

/-- Configuration used by the C5 witness. -/
def cfgFogWitness : Config ℝ where
  maxIter := 100
  zoom := 300
  offsetX := -0.75
  offsetY := 0
  baseHue := 200
  saturation := 70
  lightness := 30
  cx := -0.8
  cy := 0.156
  minNoise := 0.2
  maxNoise := 0.8
  fogDensity := 0.4
  fogSize := 0.01
  fogLayerCount := 5
  keepBlackAreasClear := true

/-- Witness for C5 at `α = ℝ` with `Math.sqrt` as the genuine square root
and a star of radius 1 centred on the pixel. -/
theorem star_exclusion_pixels_unchanged_witness :
    ((∀ a : ℝ, 0 ≤ a → 0 ≤ Real.sqrt a ∧ Real.sqrt a ^ 2 = a) ∧
        (∃ s ∈ [Star.mk (0 : ℝ) 0 1], 0 ≤ s.radius ∧
          ((0 : ℝ) - s.x) ^ 2 + ((0 : ℝ) - s.y) ^ 2 ≤ s.radius ^ 2)) ∧
      (applyFogPixel (fun _ _ => 0) Real.sqrt cfgFogWitness
            [Star.mk (0 : ℝ) 0 1] true 0 0 1 2 3 = (1, 2, 3) ∧
        finalFogPixel (fun _ _ => 0) Real.sqrt cfgFogWitness
            [Star.mk (0 : ℝ) 0 1] true 0 0 1 2 3 = (1, 2, 3)) :=
  ⟨⟨fun a ha => ⟨Real.sqrt_nonneg a, Real.sq_sqrt ha⟩,
      ⟨Star.mk (0 : ℝ) 0 1, by simp, by norm_num⟩⟩,
    star_exclusion_pixels_unchanged (fun _ _ => 0) Real.sqrt cfgFogWitness
      [Star.mk (0 : ℝ) 0 1] true 0 0 1 2 3
      (fun a ha => ⟨Real.sqrt_nonneg a, Real.sq_sqrt ha⟩)
      ⟨Star.mk (0 : ℝ) 0 1, by simp, by norm_num⟩⟩

/-- Witness for C4 at `α = ℝ` with the genuine
`Math.pow(·, 1.5) = fun x => √(x³)` and the reference configuration. -/
theorem drawFractal_mask_and_skip_witness :
    ((1 : ℕ) ≤ cfgFogWitness.maxIter ∧
        (∀ q : ℝ, 0 ≤ q →
          0 ≤ Real.sqrt (q ^ 3) ∧ Real.sqrt (q ^ 3) ^ 2 = q ^ 3)) ∧
      ((drawFractalPixel (fun _ => 0) (fun x => Real.sqrt (x ^ 3))
            (fun _ _ => 0) cfgFogWitness .mandelbrot 0 0 1 2 3).1 =
          (decide (pixelIter (fun _ => 0) cfgFogWitness .mandelbrot 0 0 <
              cfgFogWitness.maxIter) &&
            decide (pixelFade (fun _ => 0) (fun x => Real.sqrt (x ^ 3))
              cfgFogWitness .mandelbrot 0 0 > 0.01)) ∧
        (pixelFade (fun _ => 0) (fun x => Real.sqrt (x ^ 3)) cfgFogWitness
            .mandelbrot 0 0 ≤ 0.01 →
          (drawFractalPixel (fun _ => 0) (fun x => Real.sqrt (x ^ 3))
              (fun _ _ => 0) cfgFogWitness .mandelbrot 0 0 1 2 3).2 =
            (1, 2, 3))) :=
  ⟨⟨by norm_num [cfgFogWitness],
      fun q hq => ⟨Real.sqrt_nonneg _, Real.sq_sqrt (by positivity)⟩⟩,
    drawFractal_mask_and_skip (fun _ => 0) (fun x => Real.sqrt (x ^ 3))
      (fun _ _ => 0) cfgFogWitness .mandelbrot 0 0 1 2 3
      (by norm_num [cfgFogWitness])
      (fun q hq => ⟨Real.sqrt_nonneg _, Real.sq_sqrt (by positivity)⟩)⟩

/-! ## The star placement pass (`drawStarsInFractal`, lines 223–274)

`rand k` is the value of the `k`-th call to `Math.random()` (each in
`[0, 1)` in JavaScript; the embedding leaves the stream arbitrary).  One
loop pass consumes two values for the sampled pixel and, when the sample is
accepted, three more for size, brightness tier and glow, in source order.
The loop guard is `starsPlotted < 300 && attempts < 3000`; the fuel argument
counts the remaining attempts, starting at `300 * 10 = 3000`. -/

/-- One attempt of the star loop (lines 228–272), fuel-indexed. -/
def drawStarsGo [FloorRing α] (rand : ℕ → α) (sin : α → α) (cfg : Config α)
    (type : FractalType) : ℕ → ℕ → ℕ → List (Star α) → List (Star α)
  | 0, _, _, acc => acc
  | fuel + 1, k, starsPlotted, acc =>
    if starsPlotted < 300 then
      let px : α := (⌊rand k * 800⌋ : ℤ)
      let py : α := (⌊rand (k + 1) * 800⌋ : ℤ)
      let x := pixelCoordX cfg px
      let y := pixelCoordY cfg py
      let iter := fractalIter sin cfg type x y
      if iter = cfg.maxIter then
        let size := rand (k + 2) * 1.4
        let brighterStar := rand (k + 3) > 0.6
        let glowSize : α := if brighterStar then 6 else 4
        let glow := rand (k + 4) > 0.3
        drawStarsGo rand sin cfg type fuel (k + 5) (starsPlotted + 1)
          (acc ++ [⟨px, py, if glow then size * glowSize * 1.2 else size * 2⟩])
      else drawStarsGo rand sin cfg type fuel (k + 2) starsPlotted acc
    else acc

/-- `drawStarsInFractal(type)`: at most `maxStars * 10 = 3000` attempts,
target 300 stars, starting from an empty record list. -/
def drawStarsInFractal [FloorRing α] (rand : ℕ → α) (sin : α → α)
    (cfg : Config α) (type : FractalType) : List (Star α) :=
  drawStarsGo rand sin cfg type (300 * 10) 0 0 []

theorem drawStarsGo_length_le [FloorRing α] (rand : ℕ → α) (sin : α → α)
    (cfg : Config α) (type : FractalType) :
    ∀ fuel k starsPlotted acc, starsPlotted ≤ 300 →
      (drawStarsGo rand sin cfg type fuel k starsPlotted acc).length ≤
        acc.length + (300 - starsPlotted) := by
  intro fuel
  induction fuel with
  | zero => intro k p acc _; simp [drawStarsGo]
  | succ n ih =>
    intro k p acc hp
    simp only [drawStarsGo]
    by_cases hlt : p < 300
    · rw [if_pos hlt]
      split
      · refine le_trans (ih (k + 5) (p + 1) _ (by omega)) ?_
        simp only [List.length_append, List.length_cons, List.length_nil]
        omega
      · exact le_trans (ih (k + 2) p acc hp) (by omega)
    · rw [if_neg hlt]
      omega

theorem drawStarsGo_mem [FloorRing α] (rand : ℕ → α) (sin : α → α)
    (cfg : Config α) (type : FractalType) :
    ∀ fuel k starsPlotted acc,
      (∀ s ∈ acc, ∃ j : ℕ,
        s.x = ((⌊rand j * 800⌋ : ℤ) : α) ∧
        s.y = ((⌊rand (j + 1) * 800⌋ : ℤ) : α) ∧
        fractalIter sin cfg type (pixelCoordX cfg s.x) (pixelCoordY cfg s.y) =
          cfg.maxIter ∧
        s.radius = (if rand (j + 4) > 0.3 then
            rand (j + 2) * 1.4 * (if rand (j + 3) > 0.6 then (6 : α) else 4) *
              1.2
          else rand (j + 2) * 1.4 * 2)) →
      ∀ s ∈ drawStarsGo rand sin cfg type fuel k starsPlotted acc, ∃ j : ℕ,
        s.x = ((⌊rand j * 800⌋ : ℤ) : α) ∧
        s.y = ((⌊rand (j + 1) * 800⌋ : ℤ) : α) ∧
        fractalIter sin cfg type (pixelCoordX cfg s.x) (pixelCoordY cfg s.y) =
          cfg.maxIter ∧
        s.radius = (if rand (j + 4) > 0.3 then
            rand (j + 2) * 1.4 * (if rand (j + 3) > 0.6 then (6 : α) else 4) *
              1.2
          else rand (j + 2) * 1.4 * 2) := by
  intro fuel
  induction fuel with
  | zero => intro k p acc hacc; simpa [drawStarsGo] using hacc
  | succ n ih =>
    intro k p acc hacc
    simp only [drawStarsGo]
    by_cases hlt : p < 300
    · rw [if_pos hlt]
      split
      · rename_i hit
        refine ih (k + 5) (p + 1) _ ?_
        intro s hs
        rcases List.mem_append.1 hs with hold | hnew
        · exact hacc s hold
        · rcases List.mem_singleton.1 hnew with rfl
          exact ⟨k, rfl, rfl, hit, rfl⟩
      · exact ih (k + 2) p acc hacc
    · rw [if_neg hlt]
      exact hacc

/-! ### Claim C6 -/

/-- C6: for every random stream, a sampled coordinate is accepted as a star
exactly when its iteration count under the selected recurrence equals the
cap; the loop makes at most `300 · 10 = 3000` attempts (the fuel of the
translated loop) and records at most 300 stars; and every recorded star's
exclusion radius is `size · glowMultiplier · 1.2` when its glow draw
(`rand > 0.3`) fires and `size · 2` otherwise, with `glowMultiplier = 6` for
the brighter tier (`rand > 0.6`) and `4` otherwise, `size = rand · 1.4`. -/
theorem star_placement_accept_bounds_radius [FloorRing α] (rand : ℕ → α)
    (sin : α → α) (cfg : Config α) (type : FractalType) :
    drawStarsInFractal rand sin cfg type =
        drawStarsGo rand sin cfg type (300 * 10) 0 0 [] ∧
      (drawStarsInFractal rand sin cfg type).length ≤ 300 ∧
      (∀ s ∈ drawStarsInFractal rand sin cfg type, ∃ j : ℕ,
        s.x = ((⌊rand j * 800⌋ : ℤ) : α) ∧
        s.y = ((⌊rand (j + 1) * 800⌋ : ℤ) : α) ∧
        fractalIter sin cfg type (pixelCoordX cfg s.x) (pixelCoordY cfg s.y) =
          cfg.maxIter ∧
        s.radius = (if rand (j + 4) > 0.3 then
            rand (j + 2) * 1.4 * (if rand (j + 3) > 0.6 then (6 : α) else 4) *
              1.2
          else rand (j + 2) * 1.4 * 2)) ∧
      (∀ fuel k starsPlotted acc, starsPlotted < 300 →
        drawStarsGo rand sin cfg type (fuel + 1) k starsPlotted acc =
          (if fractalIter sin cfg type
              (pixelCoordX cfg ((⌊rand k * 800⌋ : ℤ) : α))
              (pixelCoordY cfg ((⌊rand (k + 1) * 800⌋ : ℤ) : α)) =
              cfg.maxIter then
            drawStarsGo rand sin cfg type fuel (k + 5) (starsPlotted + 1)
              (acc ++ [⟨((⌊rand k * 800⌋ : ℤ) : α),
                ((⌊rand (k + 1) * 800⌋ : ℤ) : α),
                if rand (k + 4) > 0.3 then
                  rand (k + 2) * 1.4 *
                    (if rand (k + 3) > 0.6 then (6 : α) else 4) * 1.2
                else rand (k + 2) * 1.4 * 2⟩])
          else drawStarsGo rand sin cfg type fuel (k + 2) starsPlotted acc)) := by
  refine ⟨rfl, ?_, ?_, ?_⟩
  · have := drawStarsGo_length_le rand sin cfg type (300 * 10) 0 0 []
      (by omega)
    simpa [drawStarsInFractal] using this
  · exact drawStarsGo_mem rand sin cfg type (300 * 10) 0 0 [] (by simp)
  · intro fuel k p acc hp
    rw [drawStarsGo, if_pos hp]

end Nebula
